import Mathlib

/-! # AshGames (`app.js`): a shallow embedding and its verified properties

The catalog logic of `app.js` is embedded as pure Lean functions.

* A JavaScript string is its sequence of UTF-16 code units (`JStr`), so that
  `slice`, `length`, `trim`, `includes`, `replaceAll` and `===` act on the
  same units as in the engine.
* A number is an integer (`Int`): the only numbers the program touches are
  epoch-millisecond timestamps, which it compares and subtracts.
* The engine built-ins that the program calls but does not define
  (`String.prototype.toLowerCase`, `String.prototype.localeCompare` and the
  `URL` constructor) are the fields of `Builtins`; every general theorem
  holds for all of them.  `refBuiltins` is a concrete instance used to
  evaluate the program on explicit inputs.
* `Date.now()` and `cryptoRandom()` are oracles (`Env`).
* `Array.prototype.sort` is stable; it is embedded as the stable insertion
  sort `jsSort`.
-/

namespace AshGames

/-! ## Strings -/

/-- A JavaScript string: the list of its UTF-16 code units. -/
abbrev JStr := List Nat

/-- UTF-16 encoding of one Unicode scalar value. -/
def utf16 (c : Char) : List Nat :=
  if c.toNat < 0x10000 then [c.toNat]
  else [0xD800 + (c.toNat - 0x10000) / 0x400, 0xDC00 + (c.toNat - 0x10000) % 0x400]

/-- The JavaScript string denoted by a source literal. -/
def js (s : String) : JStr := (s.toList.map utf16).flatten

/-- White space and line terminators, the code units `trim` strips. -/
def isWhite (c : Nat) : Bool :=
  c == 0x09 || c == 0x0A || c == 0x0B || c == 0x0C || c == 0x0D || c == 0x20 ||
  c == 0xA0 || c == 0x1680 || (0x2000 ≤ c && c ≤ 0x200A) || c == 0x2028 ||
  c == 0x2029 || c == 0x202F || c == 0x205F || c == 0x3000 || c == 0xFEFF

/-- The method `String.prototype.trim`. -/
def trim (s : JStr) : JStr :=
  ((s.dropWhile isWhite).reverse.dropWhile isWhite).reverse

/-- The call `s.slice(0, n)` on a string. -/
def slice0 (n : Nat) (s : JStr) : JStr := s.take n

/-- Whether `p` is an initial segment of `s`. -/
def startsWith : JStr → JStr → Bool
  | [], _ => true
  | _ :: _, [] => false
  | a :: p, b :: s => a == b && startsWith p s

/-- The method `String.prototype.includes`: `q` occurs in `s` as a substring. -/
def includes (s q : JStr) : Bool :=
  match s with
  | [] => q.isEmpty
  | c :: t => startsWith q (c :: t) || includes t q

/-- The call `s.replaceAll(c, r)` for a one-unit pattern `c`. -/
def replaceAll (c : Nat) (r : JStr) (s : JStr) : JStr :=
  (s.map (fun x => if x = c then r else [x])).flatten

/-- The function `escapeHtml` (source lines 416-423) on a string. -/
def escapeHtml (s : JStr) : JStr :=
  replaceAll 39 (js "&#039;")
    (replaceAll 34 (js "&quot;")
      (replaceAll 62 (js "&gt;")
        (replaceAll 60 (js "&lt;")
          (replaceAll 38 (js "&amp;") s))))

/-- ASCII lower-casing of one code unit. -/
def asciiLower (c : Nat) : Nat := if 65 ≤ c ∧ c ≤ 90 then c + 32 else c

/-! ## The engine built-ins -/

/-- The parts of a `URL` object the program reads.  `protocol` is the scheme
followed by `:`, `userinfo` is empty or ends in `@`, `host` carries the port
when there is one, `searchPart` and `hashPart` are the query and the fragment
as the serializer writes them, with their `?` and `#`. -/
structure URLRecord where
  protocol : JStr
  userinfo : JStr
  host : JStr
  pathname : JStr
  searchPart : JStr
  hashPart : JStr
deriving DecidableEq, Repr

/-- The method `URL.prototype.toString` for a URL with a host (every `http`
and `https` URL has one): the URL serializer of the URL Standard. -/
def URLRecord.href (u : URLRecord) : JStr :=
  u.protocol ++ js "//" ++ u.userinfo ++ u.host ++ u.pathname ++ u.searchPart ++ u.hashPart

/-- The engine functions the program calls without defining them. -/
structure Builtins where
  /-- The method `String.prototype.toLowerCase`. -/
  toLowerCase : JStr → JStr
  /-- The method `String.prototype.localeCompare`: negative, zero or positive. -/
  localeCompare : JStr → JStr → Int
  /-- The constructor `new URL(v)`; `none` when it throws. -/
  parseURL : JStr → Option URLRecord

/-- The test `/^https?:\/\//i.test(v)`: `v` begins with `http://` or
`https://`, letters compared without regard to ASCII case. -/
def hasHttpScheme (v : JStr) : Bool :=
  startsWith (js "http://") (v.map asciiLower) ||
  startsWith (js "https://") (v.map asciiLower)

/-- The function `sanitizeUrl` (source lines 389-403); `none` is `null`. -/
def sanitizeUrl (B : Builtins) (input : JStr) : Option JStr :=
  if input = [] then none
  else
    let v := trim input
    let v := if hasHttpScheme v then v else js "https://" ++ v
    match B.parseURL v with
    | none => none
    | some u =>
      if u.protocol ≠ js "http:" ∧ u.protocol ≠ js "https:" then none
      else some u.href

/-- The call `host.replace(/^www\./, "")`. -/
def stripWww (host : JStr) : JStr :=
  if startsWith (js "www.") host then host.drop 4 else host

/-- The function `safePrettyUrl` (source lines 405-414). -/
def safePrettyUrl (B : Builtins) (url : JStr) : JStr :=
  match B.parseURL url with
  | none => url
  | some u =>
    stripWww u.host ++
      (if u.pathname.length > 20 then slice0 20 u.pathname ++ js "…" else u.pathname)

/-! ## Values read back from storage -/

/-- A value produced by `JSON.parse`. -/
inductive JVal where
  | null : JVal
  | bool (b : Bool) : JVal
  | num (n : Int) : JVal
  | str (s : JStr) : JVal
  | arr (xs : List JVal) : JVal
  | obj (props : List (JStr × JVal)) : JVal

/-- Property read `v.k`; `none` is `undefined`.  Only the keys the program
reads (`id`, `name`, `emoji`, `url`, `category`, `createdAt`, `target`) are
ever looked up, and none of them is inherited by any parsed value. -/
def JVal.get (v : JVal) (k : JStr) : Option JVal :=
  match v with
  | .obj props => (props.find? (fun p => p.1 == k)).map (fun p => p.2)
  | _ => none

/-- Truthiness of a parsed value. -/
def JVal.truthy : JVal → Bool
  | .null => false
  | .bool b => b
  | .num n => n != 0
  | .str s => !s.isEmpty
  | .arr _ => true
  | .obj _ => true

/-- The expression `x || d` for a property read `x` and a string literal `d`. -/
def orLit (x : Option JVal) (d : JStr) : JVal :=
  match x with
  | some v => if v.truthy then v else .str d
  | none => .str d

/-- The call `v.slice(0, n)`: strings and arrays have the method; on any other
value the call throws a `TypeError` (`none`). -/
def sliceVal (n : Nat) : JVal → Option JVal
  | .str s => some (.str (slice0 n s))
  | .arr xs => some (.arr (xs.take n))
  | _ => none

/-- The content of the storage key as `loadGames` sees it. -/
inductive Raw where
  /-- The key is absent or holds the empty string (`!raw`). -/
  | absent : Raw
  /-- The stored text is not JSON: `JSON.parse` throws. -/
  | garbage : Raw
  /-- The stored text parses to the value `v`. -/
  | json (v : JVal) : Raw

/-- An entry as `loadGames` builds it.  `emoji` and `category` are whatever
`slice` returned: a string, or an array when the stored field was an array. -/
structure LoadedGame where
  id : JStr
  name : JStr
  emoji : JVal
  url : JStr
  category : JVal
  createdAt : Int
  target : JStr

/-- The oracles of one run: the two ids and the two times drawn when
`DEFAULT_GAMES` is built, and the results of the calls `cryptoRandom()` and
`Date.now()` made for the element at a given position. -/
structure Env where
  defaultId1 : JStr
  defaultId2 : JStr
  startTime1 : Int
  startTime2 : Int
  freshId : Nat → JStr
  now : Nat → Int

/-- The constant `DEFAULT_GAMES` (source lines 13-32), as `loadGames` returns
it (`structuredClone` copies by value). -/
def DEFAULT_GAMES (env : Env) : List LoadedGame :=
  [ { id := env.defaultId1, name := js "AvZ", emoji := .str (js "🌿"),
      url := js "https://avza.netlify.app/", category := .str (js "Strategy"),
      createdAt := env.startTime1 - 1000 * 60 * 60 * 24 * 2, target := js "blank" },
    { id := env.defaultId2, name := js "AshDash", emoji := .str (js "🟧"),
      url := js "https://ashdash.netlify.app/", category := .str (js "Platformer"),
      createdAt := env.startTime2 - 1000 * 60 * 60 * 24, target := js "blank" } ]

/-- The filter of `loadGames` (source line 361):
`g && typeof g.url === "string" && typeof g.name === "string"`. -/
def validEntry (g : JVal) : Bool :=
  g.truthy &&
  (match g.get (js "url") with | some (.str _) => true | _ => false) &&
  (match g.get (js "name") with | some (.str _) => true | _ => false)

/-- The string held by a property, the empty string when it is no string. -/
def strOf : Option JVal → JStr
  | some (.str s) => s
  | _ => []

/-- The mapping of `loadGames` (source lines 362-370) on an element that
passed the filter, at position `i`; `none` when a `slice` call throws. -/
def loadEntry (B : Builtins) (env : Env) (i : Nat) (g : JVal) : Option LoadedGame :=
  match sliceVal 2 (orLit (g.get (js "emoji")) (js "🎮")),
        sliceVal 20 (orLit (g.get (js "category")) (js "Unsorted")) with
  | some emoji, some category =>
    some
      { id := match g.get (js "id") with
              | some (.str s) => s
              | _ => env.freshId i
        name := slice0 40 (strOf (g.get (js "name")))
        emoji := emoji
        url := match sanitizeUrl B (strOf (g.get (js "url"))) with
               | some u => if u = [] then js "https://example.com" else u
               | none => js "https://example.com"
        category := category
        createdAt := match g.get (js "createdAt") with
                     | some (.num n) => n
                     | _ => env.now i
        target := match g.get (js "target") with
                  | some (.str s) => if s = js "self" then js "self" else js "blank"
                  | _ => js "blank" }
  | _, _ => none

/-- The method `Array.prototype.map` with a callback that may throw, the
callback receiving the position. -/
def mapIdx? {α β : Type} (f : Nat → α → Option β) : Nat → List α → Option (List β)
  | _, [] => some []
  | i, x :: xs =>
    match f i x with
    | none => none
    | some y =>
      match mapIdx? f (i + 1) xs with
      | none => none
      | some ys => some (y :: ys)

/-- The function `loadGames` (source lines 352-374). -/
def loadGames (B : Builtins) (env : Env) (raw : Raw) : List LoadedGame :=
  match raw with
  | .absent => DEFAULT_GAMES env
  | .garbage => DEFAULT_GAMES env
  | .json (.arr xs) =>
    match mapIdx? (loadEntry B env) 0 (xs.filter validEntry) with
    | some gs => gs
    | none => DEFAULT_GAMES env
  | .json _ => DEFAULT_GAMES env

/-- The value `JSON.stringify` writes for one entry and `JSON.parse` reads back. -/
def LoadedGame.toJSON (g : LoadedGame) : JVal :=
  .obj [ (js "id", .str g.id), (js "name", .str g.name), (js "emoji", g.emoji),
         (js "url", .str g.url), (js "category", g.category),
         (js "createdAt", .num g.createdAt), (js "target", .str g.target) ]

/-- The function `saveGames` (source lines 376-382) when `setItem` succeeds:
the new content of the storage key. -/
def saveGames (games : List LoadedGame) : Raw :=
  .json (.arr (games.map LoadedGame.toJSON))

/-! ## A reference instance of the built-ins

`refBuiltins` follows the engine on a fragment of its inputs and is used only
to evaluate the program on explicit inputs.

* `refParseURL` is the basic URL parser of the URL Standard on strings that
  begin with `http://` or `https://`, are written with ASCII letters, digits
  and `- . _ ~ : / ? # @ & = ( )`, whose host is a domain name (not an IP
  address) and whose path has no dot segment.  On such input no character is
  percent-encoded and the parser only splits the string.  Outside the
  fragment the definition returns `none` and tells nothing about the engine.
* `refLower` is `toLowerCase` on ASCII strings.
* `refCompare` orders ASCII words alphabetically without regard to case,
  as `localeCompare` does for words that differ in some letter.
-/

/-- ASCII letter or digit. -/
def isAlnum (c : Nat) : Bool :=
  (48 ≤ c && c ≤ 57) || (65 ≤ c && c ≤ 90) || (97 ≤ c && c ≤ 122)

/-- The characters of the fragment `refParseURL` covers. -/
def isPlainUrlChar (c : Nat) : Bool :=
  isAlnum c || c == 45 || c == 46 || c == 95 || c == 126 || c == 58 || c == 47 ||
  c == 63 || c == 35 || c == 64 || c == 38 || c == 61 || c == 40 || c == 41

/-- Characters of a user name or password that the parser copies unchanged. -/
def isUserChar (c : Nat) : Bool :=
  isAlnum c || c == 45 || c == 46 || c == 95 || c == 126

/-- Split at the first occurrence of `c`: the part before, and the part after
when `c` occurs. -/
def splitFirst (c : Nat) (s : JStr) : JStr × Option JStr :=
  match s.dropWhile (fun x => x != c) with
  | [] => (s, none)
  | _ :: t => (s.takeWhile (fun x => x != c), some t)

/-- Split at the last occurrence of `c`: the part before when `c` occurs, and
the part after. -/
def splitLast (c : Nat) (s : JStr) : Option JStr × JStr :=
  match splitFirst c s.reverse with
  | (a, none) => (none, a.reverse)
  | (a, some b) => (some b.reverse, a.reverse)

/-- Value of a string of decimal digits. -/
def digitsValue (s : JStr) : Nat := s.foldl (fun a c => a * 10 + (c - 48)) 0

/-- Decimal digits of a number, most significant first. -/
def decimalAux : Nat → Nat → JStr → JStr
  | 0, _, acc => acc
  | fuel + 1, n, acc =>
    if n < 10 then (48 + n) :: acc else decimalAux fuel (n / 10) ((48 + n % 10) :: acc)

/-- Decimal writing of a port number. -/
def decimal (n : Nat) : JStr := decimalAux 6 n []

/-- The segments of a path, split at `/`. -/
def segments : JStr → List JStr
  | [] => [[]]
  | c :: t =>
    if c = 47 then [] :: segments t
    else
      match segments t with
      | [] => [[c]]
      | seg :: rest => (c :: seg) :: rest

/-- The user-info part of the serialization, from the text before the last `@`. -/
def refUserinfo (creds : Option JStr) : Option JStr :=
  match creds with
  | none => some []
  | some c =>
    match splitFirst 58 c with
    | (user, pass) =>
      let pw := pass.getD []
      if !(user.all isUserChar && pw.all isUserChar) then none
      else if user.isEmpty && pw.isEmpty then some []
      else some (user ++ (if pw.isEmpty then [] else 58 :: pw) ++ [64])

/-- The host (with its port) of the serialization, from the text after the
last `@`; `defaultPort` is the port of the scheme. -/
def refHost (defaultPort : Nat) (hostport : JStr) : Option JStr :=
  match splitFirst 58 hostport with
  | (host, port) =>
    let lastLabel := (splitLast 46 host).2
    if host.isEmpty then none
    else if !(host.all (fun c => isAlnum c || c == 45 || c == 46)) then none
    else if !(match lastLabel with
              | c :: _ => (65 ≤ c && c ≤ 90) || (97 ≤ c && c ≤ 122)
              | [] => false) then none
    else
      match port with
      | none => some (host.map asciiLower)
      | some p =>
        if !(p.all (fun c => 48 ≤ c && c ≤ 57)) then none
        else if p.isEmpty then some (host.map asciiLower)
        else if digitsValue p > 65535 then none
        else if digitsValue p = defaultPort then some (host.map asciiLower)
        else some (host.map asciiLower ++ 58 :: decimal (digitsValue p))

/-- The constructor `new URL(v)` on the fragment described above. -/
def refParseURL (v : JStr) : Option URLRecord :=
  let low := v.map asciiLower
  let scheme : Option (JStr × Nat × JStr) :=
    if startsWith (js "https://") low then some (js "https:", 443, v.drop 8)
    else if startsWith (js "http://") low then some (js "http:", 80, v.drop 7)
    else none
  match scheme with
  | none => none
  | some (protocol, defaultPort, rest) =>
    if !(v.all isPlainUrlChar) then none
    else if startsWith [47] rest then none
    else
      let isDelim := fun (c : Nat) => c == 47 || c == 63 || c == 35
      let authority := rest.takeWhile (fun c => !isDelim c)
      let tail := rest.dropWhile (fun c => !isDelim c)
      let path := tail.takeWhile (fun c => !(c == 63 || c == 35))
      let afterPath := tail.dropWhile (fun c => !(c == 63 || c == 35))
      let query := if startsWith [63] afterPath then afterPath.takeWhile (fun c => c != 35) else []
      let fragment := afterPath.dropWhile (fun c => c != 35)
      match splitLast 64 authority with
      | (creds, hostport) =>
        match refUserinfo creds, refHost defaultPort hostport with
        | some userinfo, some host =>
          if (segments path).any (fun seg => seg == [46] || seg == [46, 46]) then none
          else
            some { protocol := protocol, userinfo := userinfo, host := host,
                   pathname := if path.isEmpty then [47] else path,
                   searchPart := query, hashPart := fragment }
        | _, _ => none

/-- The method `toLowerCase` on ASCII strings. -/
def refLower (s : JStr) : JStr := s.map asciiLower

/-- Lexicographic comparison of two code-unit sequences. -/
def lexCompare : JStr → JStr → Int
  | [], [] => 0
  | [], _ :: _ => -1
  | _ :: _, [] => 1
  | a :: s, b :: t => if a < b then -1 else if b < a then 1 else lexCompare s t

/-- Alphabetical comparison of ASCII words without regard to case. -/
def refCompare (a b : JStr) : Int := lexCompare (refLower a) (refLower b)

/-- The reference instance of the built-ins. -/
def refBuiltins : Builtins :=
  { toLowerCase := refLower, localeCompare := refCompare, parseURL := refParseURL }

/-! ## Entries and the query engine -/

/-- An entry of `state.games` in the data model of the catalog: every field is
text, and `emoji`, `category` and `createdAt` may be missing (`none` is
`undefined`). -/
structure Game where
  id : JStr
  name : JStr
  emoji : Option JStr
  url : JStr
  category : Option JStr
  createdAt : Option Int
  target : JStr
deriving DecidableEq, Repr

/-- The expression `x || d` for a text field `x` and a string literal `d`. -/
def orStr (x : Option JStr) (d : JStr) : JStr :=
  match x with
  | some s => if s = [] then d else s
  | none => d

/-- The expression `(c || "Unsorted").trim() || "Unsorted"` of `render`,
`deleteGame` and `gameCardHTML` (source lines 163, 224, 302). -/
def normCat (c : Option JStr) : JStr :=
  if trim (orStr c (js "Unsorted")) = [] then js "Unsorted"
  else trim (orStr c (js "Unsorted"))

/-- The method `Set.prototype.add` on the insertion-ordered elements of a set. -/
def setAdd (s : List JStr) (x : JStr) : List JStr :=
  if x ∈ s then s else s ++ [x]

/-- The function `unique` (source lines 385-387):
`[...new Set(arr.filter(Boolean))]`. -/
def unique (arr : List JStr) : List JStr :=
  (arr.filter (fun x => !x.isEmpty)).foldl setAdd []

/-- The method `Array.prototype.sort(cmp)`: a stable sort that puts `a` before
`b` when `cmp(a, b) < 0` and keeps their order when `cmp(a, b) = 0`. -/
def jsSort {α : Type} (cmp : α → α → Int) (l : List α) : List α :=
  l.insertionSort (fun a b => cmp a b ≤ 0)

/-- The category list computed by `render` (source lines 163-164). -/
def categories (B : Builtins) (games : List Game) : List JStr :=
  jsSort B.localeCompare (js "All" :: unique (games.map (fun g => normCat g.category)))

/-- The text a template literal writes for a text field. -/
def interp (x : Option JStr) : JStr :=
  match x with
  | some s => s
  | none => js "undefined"

/-- The haystack of `applyFilters` (source line 207) before lower-casing. -/
def hay (g : Game) : JStr :=
  g.name ++ js " " ++ interp g.category ++ js " " ++ g.url

/-- The function `applyFilters` (source lines 200-210). -/
def applyFilters (B : Builtins) (games : List Game) (query category : JStr) : List Game :=
  let q := B.toLowerCase query
  games.filter (fun g =>
    let inCat := category == js "All" || orStr g.category (js "Unsorted") == category
    if !inCat then false
    else if q.isEmpty then true
    else includes (B.toLowerCase (hay g)) q)

/-- The expression `g.createdAt || 0`. -/
def createdKey (g : Game) : Int := g.createdAt.getD 0

/-- The function `applySort` (source lines 212-219): the final values of the
argument `games` and of the copy `arr` that is sorted and returned. -/
def applySortRun (B : Builtins) (games : List Game) (mode : JStr) : List Game × List Game :=
  let arr := games
  let arr := if mode = js "name-asc" then
      jsSort (fun a b => B.localeCompare a.name b.name) arr else arr
  let arr := if mode = js "name-desc" then
      jsSort (fun a b => B.localeCompare b.name a.name) arr else arr
  let arr := if mode = js "newest" then
      jsSort (fun a b => createdKey b - createdKey a) arr else arr
  let arr := if mode = js "oldest" then
      jsSort (fun a b => createdKey a - createdKey b) arr else arr
  (games, arr)

/-- The value returned by `applySort`. -/
def applySort (B : Builtins) (games : List Game) (mode : JStr) : List Game :=
  (applySortRun B games mode).2

/-! ## The renderer -/

/-- One chip of `renderChips` (source lines 184-185). -/
def chipHTML (active : JStr) (cat : JStr) : JStr :=
  js "<button class=\"chip " ++ (if cat = active then js "active" else []) ++
  js "\" type=\"button\" data-chip=\"" ++ escapeHtml cat ++ js "\">" ++
  escapeHtml cat ++ js "</button>"

/-- The markup `renderChips` assigns to the chip row (source lines 183-186). -/
def renderChips (active : JStr) (cats : List JStr) : JStr :=
  (cats.map (chipHTML active)).flatten

/-- The escaped emoji of a card (source line 222). -/
def cardEmoji (g : Game) : JStr :=
  match g.emoji with
  | some e => if e = [] then js "🎮" else escapeHtml e
  | none => js "🎮"

/-- The function `gameCardHTML` (source lines 221-255). -/
def gameCardHTML (B : Builtins) (g : Game) : JStr :=
  js "\n    <article class=\"card\" aria-label=\"" ++
  escapeHtml (if g.name = [] then js "Untitled" else g.name) ++
  js "\">\n      <div class=\"cardTop\">\n        <div class=\"cardTitle\">\n          <span style=\"font-size:18px\" aria-hidden=\"true\">" ++
  cardEmoji g ++
  js "</span>\n          <span>" ++
  escapeHtml (if g.name = [] then js "Untitled" else g.name) ++
  js "</span>\n        </div>\n        <span class=\"badge\">" ++
  escapeHtml (normCat g.category) ++
  js "</span>\n      </div>\n\n      <div class=\"cardMeta\">\n        " ++
  escapeHtml (safePrettyUrl B g.url) ++
  js "\n      </div>\n\n      <div class=\"cardActions\">\n        <button class=\"pill\" type=\"button\" data-action=\"play\" data-id=\"" ++
  g.id ++
  js "\">\n          Play\n        </button>\n        <button class=\"pill linkBtn\" type=\"button\" data-action=\"copy\" data-id=\"" ++
  g.id ++
  js "\">\n          Copy link\n        </button>\n        <button class=\"pill ghost\" type=\"button\" data-action=\"delete\" data-id=\"" ++
  g.id ++
  js "\" title=\"Remove\">\n          Delete\n        </button>\n      </div>\n    </article>\n  "

/-! ## The application state and its handlers -/

/-- The variable `state` (source lines 57-62), with the list last written to
storage (`stored`). -/
structure State where
  games : List Game
  query : JStr
  category : JStr
  sort : JStr
  stored : Option (List Game)

/-- The function `saveGames` from a handler: `ok` tells whether `setItem`
succeeded; a failure is swallowed and leaves the storage as it was. -/
def persist (ok : Bool) (s : State) : State :=
  if ok then { s with stored := some s.games } else s

/-- The function `deleteGame` (source lines 297-306). -/
def deleteGame (ok : Bool) (s : State) (id : JStr) : State :=
  let s1 := persist ok { s with games := s.games.filter (fun g => g.id != id) }
  let cats := unique (s1.games.map (fun g => normCat g.category))
  if s1.category ≠ js "All" ∧ ¬ (s1.category ∈ cats) then { s1 with category := js "All" }
  else s1

/-- The constant `DEFAULT_GAMES` (source lines 13-32) as entries of the state. -/
def defaultGames (env : Env) : List Game :=
  [ { id := env.defaultId1, name := js "AvZ", emoji := some (js "🌿"),
      url := js "https://avza.netlify.app/", category := some (js "Strategy"),
      createdAt := some (env.startTime1 - 1000 * 60 * 60 * 24 * 2), target := js "blank" },
    { id := env.defaultId2, name := js "AshDash", emoji := some (js "🟧"),
      url := js "https://ashdash.netlify.app/", category := some (js "Platformer"),
      createdAt := some (env.startTime2 - 1000 * 60 * 60 * 24), target := js "blank" } ]

/-- The reset handler (source lines 105-112). -/
def resetHandler (ok : Bool) (env : Env) (s : State) : State :=
  persist ok { s with games := defaultGames env, category := js "All", query := [] }

/-- The values of the add form when it is submitted. -/
structure Form where
  nameInput : JStr
  emojiInput : JStr
  urlInput : JStr
  catInput : JStr
  targetSelect : JStr

/-- The submit handler of the add form (source lines 115-144); `newId` and
`time` are the results of `cryptoRandom()` and `Date.now()`. -/
def submitHandler (B : Builtins) (ok : Bool) (newId : JStr) (time : Int)
    (f : Form) (s : State) : State :=
  let name := trim f.nameInput
  let emoji := slice0 2 (trim (if f.emojiInput = [] then js "🎮" else f.emojiInput))
  let category := trim (if f.catInput = [] then js "Unsorted" else f.catInput)
  let target := if f.targetSelect = js "self" then js "self" else js "blank"
  match sanitizeUrl B (trim f.urlInput) with
  | none => s
  | some cleaned =>
    if cleaned = [] then s
    else
      let game : Game :=
        { id := newId, name := if name = [] then js "Untitled" else name,
          emoji := some emoji, url := cleaned,
          category := some (if category = [] then js "Unsorted" else category),
          createdAt := some time, target := target }
      let s1 := persist ok { s with games := game :: s.games }
      { s1 with query := [] }

/-! ## Specification predicates -/

/-- The string is an absolute URL of scheme `http` or `https`: it begins with
`http://` or `https://`. -/
def isHttpUrl (s : JStr) : Bool :=
  startsWith (js "http://") s || startsWith (js "https://") s

/-- The value `slice(0, n)` can be called on `x || d`: the property is
missing or falsy (the string literal `d` is taken), or is a string or an array. -/
def sliceable (x : Option JVal) : Bool :=
  match x with
  | none => true
  | some (.str _) => true
  | some (.arr _) => true
  | some v => !v.truthy

/-- Both `slice` calls of `loadGames` succeed on the element. -/
def loadable (g : JVal) : Bool :=
  sliceable (g.get (js "emoji")) && sliceable (g.get (js "category"))

/-! ## Sample inputs -/

/-- An environment with fixed oracle values. -/
def env0 : Env :=
  { defaultId1 := js "d1", defaultId2 := js "d2", startTime1 := 1000000000,
    startTime2 := 1000000001,
    freshId := fun _ => js "f", now := fun _ => 7 }

/-- An entry with the given name, category and creation time. -/
def mkGame (id name : String) (category : Option String) (createdAt : Option Int) : Game :=
  { id := js id, name := js name, emoji := some (js "🎮"), url := js "https://a.io/",
    category := category.map js, createdAt := createdAt, target := js "blank" }

/-- A stored element with string `url` and `name` plus further properties. -/
def rawEntry (url name : String) (more : List (JStr × JVal)) : JVal :=
  .obj ([(js "url", .str (js url)), (js "name", .str (js name))] ++ more)

/-- A state holding the default entries. -/
def state0 : State :=
  { games := defaultGames env0, query := [], category := js "All", sort := js "name-asc",
    stored := none }

/-- A filled add form. -/
def form0 : Form :=
  { nameInput := js "Pong", emojiInput := [], urlInput := js "pong.io", catInput := [],
    targetSelect := js "blank" }

/-- Three entries created at 100, 300 and 200. -/
def threeGames : List Game :=
  [mkGame "a" "A" none (some 100), mkGame "b" "B" none (some 300), mkGame "c" "C" none (some 200)]

/-! ## Theorems -/

/-- C1: with the empty query and the selected category `A`, `applyFilters`
drops an entry whose stored category is ` A` (leading blank), although the
normalized category of that entry, the one `render` shows as a chip, is `A`:
the filter compares the untrimmed category. -/
theorem applyFilters_compares_untrimmed (B : Builtins) :
    normCat (mkGame "1" "x" (some " A") none).category = js "A" ∧
    applyFilters B [mkGame "1" "x" (some " A") none] [] (js "A") = [] ∧
    normCat (mkGame "2" "y" (some "  ") none).category = js "Unsorted" ∧
    applyFilters B [mkGame "2" "y" (some "  ") none] [] (js "Unsorted") = [] := by
  refine ⟨by decide, ?_, by decide, ?_⟩ <;> rfl

/-- C2 (as stated, refuted): a stored array with a valid element and a second
element that has a string `url`, a string `name` and the number 5 as `emoji`
makes `loadGames` return the two default entries `AvZ` and `AshDash`, not one
entry for each of the two elements. -/
theorem loadGames_emoji_number_gives_defaults :
    [rawEntry "b.io" "y" [], rawEntry "a.io" "x" [(js "emoji", .num 5)]].all validEntry
      = true ∧
    (loadGames refBuiltins env0 (.json (.arr [rawEntry "b.io" "y" [],
        rawEntry "a.io" "x" [(js "emoji", .num 5)]]))).map (fun g => g.name)
      = [js "AvZ", js "AshDash"] ∧
    (loadGames refBuiltins env0 (.json (.arr [rawEntry "a.io" "x" [(js "emoji", .num 5)]]))).map
      (fun g => g.name) = [js "AvZ", js "AshDash"] := by
  decide

/-- C3: `sanitizeUrl` does not reject `ftp://host/x` nor `mailto:a@b.c`: it
prepends `https://` to them as to any input that does not begin with
`http://` or `https://`, and the results parse as `https` URLs.  It rejects
`javascript:alert(1)` and maps `example.com` to `https://example.com/`. -/
theorem sanitizeUrl_other_scheme_not_rejected :
    sanitizeUrl refBuiltins (js "ftp://host/x") = some (js "https://ftp//host/x") ∧
    sanitizeUrl refBuiltins (js "mailto:a@b.c") = some (js "https://mailto:a@b.c/") ∧
    sanitizeUrl refBuiltins (js "javascript:alert(1)") = none ∧
    sanitizeUrl refBuiltins (js "example.com") = some (js "https://example.com/") := by
  decide

/-- C5: for the stored array with one element whose `url` is the empty
string, `loadGames` returns one entry with the placeholder
`https://example.com`; after `saveGames` a second `loadGames` returns the url
`https://example.com/`, so the two lists differ. -/
theorem load_save_load_changes_placeholder :
    (loadGames refBuiltins env0 (.json (.arr [rawEntry "" "x" []]))).map (fun g => g.url)
      = [js "https://example.com"] ∧
    (loadGames refBuiltins env0
        (saveGames (loadGames refBuiltins env0 (.json (.arr [rawEntry "" "x" []]))))).map
        (fun g => g.url) = [js "https://example.com/"] ∧
    loadGames refBuiltins env0
        (saveGames (loadGames refBuiltins env0 (.json (.arr [rawEntry "" "x" []]))))
      ≠ loadGames refBuiltins env0 (.json (.arr [rawEntry "" "x" []])) := by
  have h1 : (loadGames refBuiltins env0 (.json (.arr [rawEntry "" "x" []]))).map
      (fun g => g.url) = [js "https://example.com"] := by decide
  have h2 : (loadGames refBuiltins env0
        (saveGames (loadGames refBuiltins env0 (.json (.arr [rawEntry "" "x" []]))))).map
        (fun g => g.url) = [js "https://example.com/"] := by decide
  refine ⟨h1, h2, fun h => ?_⟩
  rw [h, h1] at h2
  exact absurd h2 (by decide)

/-! ### The function `unique` -/

theorem mem_foldl_setAdd (l acc : List JStr) (x : JStr) :
    x ∈ l.foldl setAdd acc ↔ x ∈ acc ∨ x ∈ l := by
  induction l generalizing acc with
  | nil => simp
  | cons a l ih =>
    rw [List.foldl_cons, ih]
    unfold setAdd
    by_cases h : a ∈ acc
    · simp only [h, if_true, List.mem_cons]
      constructor
      · rintro (h1 | h1)
        · exact Or.inl h1
        · exact Or.inr (Or.inr h1)
      · rintro (h1 | h1 | h1)
        · exact Or.inl h1
        · exact Or.inl (h1 ▸ h)
        · exact Or.inr h1
    · simp only [h, if_false, List.mem_append, List.mem_singleton, List.mem_cons]
      tauto

theorem nodup_foldl_setAdd (l acc : List JStr) (h : acc.Nodup) :
    (l.foldl setAdd acc).Nodup := by
  induction l generalizing acc with
  | nil => simpa using h
  | cons a l ih =>
    rw [List.foldl_cons]
    apply ih
    unfold setAdd
    by_cases ha : a ∈ acc
    · simpa [ha] using h
    · simp only [ha, if_false]
      rw [List.nodup_append]
      refine ⟨h, List.nodup_singleton a, ?_⟩
      intro x hx hx2
      rw [List.mem_singleton] at hx2
      exact ha (hx2 ▸ hx)

theorem mem_unique (arr : List JStr) (x : JStr) :
    x ∈ unique arr ↔ x ∈ arr ∧ x ≠ [] := by
  unfold unique
  rw [mem_foldl_setAdd]
  simp [List.mem_filter, List.isEmpty_iff]

theorem nodup_unique (arr : List JStr) : (unique arr).Nodup :=
  nodup_foldl_setAdd _ _ List.nodup_nil

theorem normCat_ne_nil (c : Option JStr) : normCat c ≠ [] := by
  unfold normCat
  split
  · decide
  · assumption

theorem mem_unique_normCat (games : List Game) (c : JStr) :
    c ∈ unique (games.map (fun g => normCat g.category)) ↔
      ∃ g ∈ games, normCat g.category = c := by
  rw [mem_unique, List.mem_map]
  constructor
  · rintro ⟨h, _⟩
    exact h
  · rintro ⟨g, hg, rfl⟩
    exact ⟨⟨g, hg, rfl⟩, normCat_ne_nil _⟩

theorem persist_games (ok : Bool) (s : State) : (persist ok s).games = s.games := by
  unfold persist; split <;> rfl

theorem persist_category (ok : Bool) (s : State) : (persist ok s).category = s.category := by
  unfold persist; split <;> rfl

theorem deleteGame_games_category (ok : Bool) (s : State) (id : JStr) :
    (deleteGame ok s id).games = s.games.filter (fun g => g.id != id) ∧
    (deleteGame ok s id).category =
      if (s.games.filter (fun g => g.id != id)).any (fun g => normCat g.category == s.category)
      then s.category else js "All" := by
  have hany : (s.games.filter (fun g => g.id != id)).any
        (fun g => normCat g.category == s.category) = true ↔
      s.category ∈ unique ((s.games.filter (fun g => g.id != id)).map
        (fun g => normCat g.category)) := by
    rw [mem_unique_normCat, List.any_eq_true]
    simp
  have hfalse : ∀ b : Bool, ¬ (b = true) → b = false := by
    intro b hb; cases b <;> simp_all
  unfold deleteGame
  simp only [persist_games, persist_category]
  by_cases hP : s.category ≠ js "All" ∧ ¬ (s.category ∈ unique
      ((s.games.filter (fun g => g.id != id)).map (fun g => normCat g.category)))
  · rw [if_pos hP]
    refine ⟨rfl, ?_⟩
    rw [hfalse _ (fun h => hP.2 (hany.mp h))]
    rfl
  · rw [if_neg hP]
    refine ⟨persist_games _ _, ?_⟩
    rw [persist_category]
    by_cases hin : s.category ∈ unique
        ((s.games.filter (fun g => g.id != id)).map (fun g => normCat g.category))
    · rw [hany.mpr hin]
      rfl
    · rw [hfalse _ (fun h => hin (hany.mp h))]
      have hall : s.category = js "All" := by
        by_contra hne
        exact hP ⟨hne, hin⟩
      simpa using hall

/-- C9: after `deleteGame(id)` the entry list is the previous list without the
entries carrying `id`, the others kept in order; the active category is
unchanged when some remaining entry has it as normalized category, and is
`All` otherwise. -/
theorem deleteGame_spec (ok : Bool) (s : State) (id : JStr) :
    (deleteGame ok s id).games = s.games.filter (fun g => g.id != id) ∧
    (deleteGame ok s id).category =
      if (s.games.filter (fun g => g.id != id)).any (fun g => normCat g.category == s.category)
      then s.category else js "All" :=
  deleteGame_games_category ok s id

set_option maxRecDepth 100000 in
/-- C10: `gameCardHTML` writes the id of an entry into the three `data-id`
attributes as it is, without `escapeHtml`: for the id `"><b>` the markup
contains `data-id=""><b>">`, the quote and angle brackets unescaped, while
`escapeHtml` maps that id to `&quot;&gt;&lt;b&gt;`. -/
theorem gameCardHTML_id_unescaped :
    includes (gameCardHTML refBuiltins (mkGame "\"><b>" "x" none none))
      (js "data-action=\"play\" data-id=\"\"><b>\">") = true ∧
    includes (gameCardHTML refBuiltins (mkGame "\"><b>" "x" none none))
      (js "data-action=\"copy\" data-id=\"\"><b>\">") = true ∧
    includes (gameCardHTML refBuiltins (mkGame "\"><b>" "x" none none))
      (js "data-action=\"delete\" data-id=\"\"><b>\" title") = true ∧
    escapeHtml (js "\"><b>") = js "&quot;&gt;&lt;b&gt;" := by
  decide

/-! ### The URL invariant -/

theorem sanitizeUrl_prepends (B : Builtins) (input : JStr) (u : URLRecord)
    (h0 : input ≠ []) (h1 : hasHttpScheme (trim input) = false)
    (h2 : B.parseURL (js "https://" ++ trim input) = some u)
    (h3 : u.protocol = js "https:") :
    sanitizeUrl B input = some u.href := by
  unfold sanitizeUrl
  rw [if_neg h0]
  simp only [h1, Bool.false_eq_true, if_false, h2, h3]
  rfl

theorem startsWith_append (p s : JStr) : startsWith p (p ++ s) = true := by
  induction p with
  | nil => cases s <;> rfl
  | cons a p ih => simp [startsWith, ih]

theorem isHttpUrl_href (u : URLRecord)
    (h : ¬ (u.protocol ≠ js "http:" ∧ u.protocol ≠ js "https:")) :
    isHttpUrl u.href = true := by
  have h1 : js "http:" ++ js "//" = js "http://" := by decide
  have h2 : js "https:" ++ js "//" = js "https://" := by decide
  have hp : u.protocol = js "http:" ∨ u.protocol = js "https:" := by
    by_cases h3 : u.protocol = js "http:"
    · exact Or.inl h3
    · by_cases h4 : u.protocol = js "https:"
      · exact Or.inr h4
      · exact absurd ⟨h3, h4⟩ h
  unfold isHttpUrl URLRecord.href
  rcases hp with hp | hp
  · rw [hp, h1]
    simp only [List.append_assoc, startsWith_append, Bool.true_or]
  · rw [hp, h2]
    simp only [List.append_assoc, startsWith_append, Bool.or_true]

theorem isHttpUrl_sanitizeUrl (B : Builtins) (input u : JStr)
    (h : sanitizeUrl B input = some u) : isHttpUrl u = true := by
  unfold sanitizeUrl at h
  split at h
  · exact absurd h (by simp)
  · simp only at h
    split at h
    · exact absurd h (by simp)
    · split at h
      · exact absurd h (by simp)
      · rename_i hproto
        injection h with h
        rw [← h]
        exact isHttpUrl_href _ hproto

theorem isHttpUrl_loadEntry (B : Builtins) (env : Env) (i : Nat) (g : JVal) (e : LoadedGame)
    (h : loadEntry B env i g = some e) : isHttpUrl e.url = true := by
  unfold loadEntry at h
  split at h
  · injection h with h
    rw [← h]
    simp only
    split
    · rename_i u hu
      split
      · decide
      · exact isHttpUrl_sanitizeUrl B _ u hu
    · decide
  · exact absurd h (by simp)

theorem mapIdx?_mem {α β : Type} (f : Nat → α → Option β) (xs : List α) (i : Nat)
    (ys : List β) (h : mapIdx? f i xs = some ys) (y : β) (hy : y ∈ ys) :
    ∃ j x, x ∈ xs ∧ f j x = some y := by
  induction xs generalizing i ys with
  | nil =>
    simp only [mapIdx?, Option.some.injEq] at h
    subst h
    exact absurd hy (List.not_mem_nil y)
  | cons x xs ih =>
    simp only [mapIdx?] at h
    split at h
    · exact absurd h (by simp)
    · rename_i z hz
      split at h
      · exact absurd h (by simp)
      · rename_i zs hzs
        injection h with h
        subst h
        rcases List.mem_cons.mp hy with rfl | hy
        · exact ⟨i, x, List.mem_cons_self _ _, hz⟩
        · obtain ⟨j, x2, hx2, hf⟩ := ih (i + 1) zs hzs hy
          exact ⟨j, x2, List.mem_cons_of_mem _ hx2, hf⟩

theorem isHttpUrl_DEFAULT_GAMES (env : Env) (g : LoadedGame) (h : g ∈ DEFAULT_GAMES env) :
    isHttpUrl g.url = true := by
  simp only [DEFAULT_GAMES, List.mem_cons, List.mem_singleton, List.not_mem_nil, or_false] at h
  rcases h with rfl | rfl <;> rfl

theorem isHttpUrl_loadGames (B : Builtins) (env : Env) (raw : Raw) (g : LoadedGame)
    (h : g ∈ loadGames B env raw) : isHttpUrl g.url = true := by
  unfold loadGames at h
  split at h
  · exact isHttpUrl_DEFAULT_GAMES env g h
  · exact isHttpUrl_DEFAULT_GAMES env g h
  · split at h
    · rename_i gs hgs
      obtain ⟨j, x, _, hf⟩ := mapIdx?_mem _ _ _ _ hgs g h
      exact isHttpUrl_loadEntry B env j x g hf
    · exact isHttpUrl_DEFAULT_GAMES env g h
  · exact isHttpUrl_DEFAULT_GAMES env g h

theorem isHttpUrl_defaultGames (env : Env) (g : Game) (h : g ∈ defaultGames env) :
    isHttpUrl g.url = true := by
  simp only [defaultGames, List.mem_cons, List.mem_singleton, List.not_mem_nil, or_false] at h
  rcases h with rfl | rfl <;> rfl

theorem isHttpUrl_submitHandler (B : Builtins) (ok : Bool) (newId : JStr) (time : Int)
    (f : Form) (s : State) (hs : ∀ g ∈ s.games, isHttpUrl g.url = true) :
    ∀ g ∈ (submitHandler B ok newId time f s).games, isHttpUrl g.url = true := by
  intro g hg
  unfold submitHandler at hg
  simp only at hg
  split at hg
  · exact hs g hg
  · rename_i cleaned hc
    split at hg
    · exact hs g hg
    · simp only [persist_games, List.mem_cons] at hg
      rcases hg with rfl | hg
      · exact isHttpUrl_sanitizeUrl B _ cleaned hc
      · exact hs g hg

/-- C4: the url of every entry is an absolute `http` or `https` URL in the
list `loadGames` returns for any storage content, and the submit handler of
the add form, `deleteGame` and the reset handler keep it so. -/
theorem url_invariant (B : Builtins) (env : Env) :
    (∀ raw, ∀ g ∈ loadGames B env raw, isHttpUrl g.url = true) ∧
    (∀ ok newId time f s, (∀ g ∈ s.games, isHttpUrl g.url = true) →
      ∀ g ∈ (submitHandler B ok newId time f s).games, isHttpUrl g.url = true) ∧
    (∀ ok s id, (∀ g ∈ s.games, isHttpUrl g.url = true) →
      ∀ g ∈ (deleteGame ok s id).games, isHttpUrl g.url = true) ∧
    (∀ ok s, ∀ g ∈ (resetHandler ok env s).games, isHttpUrl g.url = true) := by
  refine ⟨fun raw g hg => isHttpUrl_loadGames B env raw g hg,
    fun ok newId time f s hs => isHttpUrl_submitHandler B ok newId time f s hs, ?_, ?_⟩
  · intro ok s id hs g hg
    rw [(deleteGame_games_category ok s id).1] at hg
    exact hs g (List.mem_of_mem_filter hg)
  · intro ok s g hg
    unfold resetHandler at hg
    rw [persist_games] at hg
    exact isHttpUrl_defaultGames env g hg

/-- Witness for C4: the invariant on the default entries carries over to the
state after submitting the form for `pong.io` and then deleting the entry `d1`. -/
theorem url_invariant_witness :
    (∀ g ∈ state0.games, isHttpUrl g.url = true) ∧
    (∀ g ∈ (deleteGame true (submitHandler refBuiltins true (js "n") 5 form0 state0)
        (js "d1")).games, isHttpUrl g.url = true) :=
  ⟨by decide,
   (url_invariant refBuiltins env0).2.2.1 true _ (js "d1")
    ((url_invariant refBuiltins env0).2.1 true (js "n") 5 form0 state0 (by decide))⟩

/-! ### Filtering -/

/-- C8 (as stated, refuted): with category `All` and the query `ash`,
`applyFilters` returns only `AshDash` out of the entries `AvZ` and `AshDash`,
not the full list. -/
theorem applyFilters_all_query_counterexample :
    applyFilters refBuiltins [mkGame "1" "AvZ" (some "Strategy") none,
        mkGame "2" "AshDash" (some "Platformer") none] (js "ash") (js "All")
      = [mkGame "2" "AshDash" (some "Platformer") none] ∧
    applyFilters refBuiltins [mkGame "1" "AvZ" (some "Strategy") none,
        mkGame "2" "AshDash" (some "Platformer") none] (js "ash") (js "All")
      ≠ [mkGame "1" "AvZ" (some "Strategy") none,
        mkGame "2" "AshDash" (some "Platformer") none] := by
  decide

/-- C8 (amended): with category `All`, `applyFilters` returns, in input order,
exactly the entries for which the lower-cased query is empty or occurs in the
lower-cased text `name category url`; with the empty query (which
`toLowerCase` leaves empty) it returns the full list unchanged. -/
theorem applyFilters_all (B : Builtins) (games : List Game) (query : JStr) :
    applyFilters B games query (js "All") =
      games.filter (fun g => (B.toLowerCase query).isEmpty ||
        includes (B.toLowerCase (hay g)) (B.toLowerCase query)) ∧
    (B.toLowerCase [] = [] → applyFilters B games [] (js "All") = games) := by
  have h1 : ∀ q : JStr, applyFilters B games q (js "All") =
      games.filter (fun g => (B.toLowerCase q).isEmpty ||
        includes (B.toLowerCase (hay g)) (B.toLowerCase q)) := by
    intro q
    unfold applyFilters
    apply List.filter_congr
    intro g _
    have hAll : (js "All" == js "All") = true := by decide
    simp only [hAll, Bool.true_or, Bool.not_true]
    cases (B.toLowerCase q).isEmpty <;> simp
  refine ⟨h1 query, fun h0 => ?_⟩
  rw [h1, h0]
  simp

/-- Witness for C8 (amended): the empty query with category `All` on the two
default-like entries. -/
theorem applyFilters_all_witness :
    applyFilters refBuiltins [mkGame "1" "AvZ" (some "Strategy") none,
        mkGame "2" "AshDash" (some "Platformer") none] [] (js "All")
      = [mkGame "1" "AvZ" (some "Strategy") none,
        mkGame "2" "AshDash" (some "Platformer") none] :=
  (applyFilters_all refBuiltins _ []).2 (by decide)

/-! ### Sorting by creation time -/

theorem applySort_newest (B : Builtins) (games : List Game) :
    applySort B games (js "newest") =
      jsSort (fun a b => createdKey b - createdKey a) games := by
  have h1 : ¬ (js "newest" = js "name-asc") := by decide
  have h2 : ¬ (js "newest" = js "name-desc") := by decide
  have h3 : ¬ (js "newest" = js "oldest") := by decide
  simp only [applySort, applySortRun, if_neg h1, if_neg h2, if_neg h3, if_true]

theorem applySort_oldest (B : Builtins) (games : List Game) :
    applySort B games (js "oldest") =
      jsSort (fun a b => createdKey a - createdKey b) games := by
  have h1 : ¬ (js "oldest" = js "name-asc") := by decide
  have h2 : ¬ (js "oldest" = js "name-desc") := by decide
  have h3 : ¬ (js "oldest" = js "newest") := by decide
  simp only [applySort, applySortRun, if_neg h1, if_neg h2, if_neg h3, if_true]

theorem jsSort_perm {α : Type} (cmp : α → α → Int) (l : List α) : (jsSort cmp l).Perm l :=
  List.perm_insertionSort _ l

theorem jsSort_sorted {α : Type} (cmp : α → α → Int)
    (htotal : ∀ a b, cmp a b ≤ 0 ∨ cmp b a ≤ 0)
    (htrans : ∀ a b c, cmp a b ≤ 0 → cmp b c ≤ 0 → cmp a c ≤ 0) (l : List α) :
    (jsSort cmp l).Sorted (fun a b => cmp a b ≤ 0) := by
  haveI : IsTotal α (fun a b => cmp a b ≤ 0) := ⟨htotal⟩
  haveI : IsTrans α (fun a b => cmp a b ≤ 0) := ⟨htrans⟩
  exact List.sorted_insertionSort _ l

theorem newest_sorted (games : List Game) :
    (jsSort (fun a b => createdKey b - createdKey a) games).Sorted
      (fun a b => createdKey b ≤ createdKey a) := by
  have h := jsSort_sorted (fun a b : Game => createdKey b - createdKey a)
    (fun a b => by show _ - _ ≤ (0 : Int) ∨ _ - _ ≤ (0 : Int); omega)
    (fun a b c h1 h2 => by
      have h3 : _ - _ ≤ (0 : Int) := h1
      have h4 : _ - _ ≤ (0 : Int) := h2
      show _ - _ ≤ (0 : Int)
      omega) games
  exact List.Pairwise.imp (fun {a b} (hab : createdKey b - createdKey a ≤ 0) => by omega) h

theorem oldest_sorted (games : List Game) :
    (jsSort (fun a b => createdKey a - createdKey b) games).Sorted
      (fun a b => createdKey a ≤ createdKey b) := by
  have h := jsSort_sorted (fun a b : Game => createdKey a - createdKey b)
    (fun a b => by show _ - _ ≤ (0 : Int) ∨ _ - _ ≤ (0 : Int); omega)
    (fun a b c h1 h2 => by
      have h3 : _ - _ ≤ (0 : Int) := h1
      have h4 : _ - _ ≤ (0 : Int) := h2
      show _ - _ ≤ (0 : Int)
      omega) games
  exact List.Pairwise.imp (fun {a b} (hab : createdKey a - createdKey b ≤ 0) => by omega) h

theorem strict_of_nodup_keys (l : List Game) (hs : l.Sorted (fun a b => createdKey a ≤ createdKey b))
    (hn : (l.map createdKey).Nodup) :
    l.Sorted (fun a b => createdKey a < createdKey b) := by
  have hne : l.Pairwise (fun a b => createdKey a ≠ createdKey b) := by
    have := List.pairwise_map.mp hn
    exact this
  exact List.Pairwise.imp₂ (fun a b h1 h2 => lt_of_le_of_ne h1 h2) hs hne

theorem oldest_eq_reverse_newest (games : List Game) (hn : (games.map createdKey).Nodup) :
    jsSort (fun a b => createdKey a - createdKey b) games =
      (jsSort (fun a b => createdKey b - createdKey a) games).reverse := by
  haveI : IsAntisymm Game (fun a b => createdKey a < createdKey b) :=
    ⟨fun a b h1 h2 => absurd h1 (not_lt_of_gt h2)⟩
  have hp1 := jsSort_perm (fun a b : Game => createdKey a - createdKey b) games
  have hp2 := jsSort_perm (fun a b : Game => createdKey b - createdKey a) games
  have hperm : (jsSort (fun a b => createdKey a - createdKey b) games).Perm
      (jsSort (fun a b => createdKey b - createdKey a) games).reverse :=
    hp1.trans ((List.reverse_perm _).trans hp2).symm
  have hs1 := strict_of_nodup_keys _ (oldest_sorted games)
    ((hp1.map createdKey).nodup_iff.mpr hn)
  have hrev : (jsSort (fun a b => createdKey b - createdKey a) games).reverse.Sorted
      (fun a b => createdKey a ≤ createdKey b) :=
    List.pairwise_reverse.mpr (newest_sorted games)
  have hs2 := strict_of_nodup_keys _ hrev
    (((List.reverse_perm _).trans hp2).map createdKey |>.nodup_iff.mpr hn)
  exact List.eq_of_perm_of_sorted hperm hs1 hs2

/-- C7 (as stated, refuted): for two entries with the same `createdAt` the
sort is stable in both modes, so `oldest` returns them in input order and not
in the reverse of the `newest` order. -/
theorem applySort_oldest_not_reverse :
    applySort refBuiltins [mkGame "a" "A" none (some 1), mkGame "b" "B" none (some 1)]
        (js "oldest")
      = [mkGame "a" "A" none (some 1), mkGame "b" "B" none (some 1)] ∧
    (applySort refBuiltins [mkGame "a" "A" none (some 1), mkGame "b" "B" none (some 1)]
        (js "newest")).reverse
      = [mkGame "b" "B" none (some 1), mkGame "a" "A" none (some 1)] ∧
    applySort refBuiltins [mkGame "a" "A" none (some 1), mkGame "b" "B" none (some 1)]
        (js "oldest")
      ≠ (applySort refBuiltins [mkGame "a" "A" none (some 1), mkGame "b" "B" none (some 1)]
        (js "newest")).reverse := by
  decide

/-- C7 (amended): `applySort` with mode `newest` returns a permutation of the
input in non-increasing order of `createdAt` (missing counted as 0), with mode
`oldest` a permutation in non-decreasing order, equal to the reverse of the
`newest` result when the `createdAt` values are pairwise distinct; the
argument list is unchanged in every mode; the values 100, 300, 200 give
300, 200, 100 and 100, 200, 300. -/
theorem applySort_created (B : Builtins) (games : List Game) :
    (applySort B games (js "newest")).Perm games ∧
    (applySort B games (js "newest")).Sorted (fun a b => createdKey b ≤ createdKey a) ∧
    (applySort B games (js "oldest")).Perm games ∧
    (applySort B games (js "oldest")).Sorted (fun a b => createdKey a ≤ createdKey b) ∧
    (∀ mode, (applySortRun B games mode).1 = games) ∧
    ((games.map createdKey).Nodup →
      applySort B games (js "oldest") = (applySort B games (js "newest")).reverse) ∧
    (applySort B threeGames (js "newest")).map createdKey = [300, 200, 100] ∧
    (applySort B threeGames (js "oldest")).map createdKey = [100, 200, 300] := by
  rw [applySort_newest, applySort_oldest, applySort_newest, applySort_oldest]
  exact ⟨jsSort_perm _ _, newest_sorted _, jsSort_perm _ _, oldest_sorted _, fun _ => rfl,
    oldest_eq_reverse_newest _, by decide, by decide⟩

/-- Witness for C7 (amended): the entries created at 100, 300 and 200 have
pairwise distinct times, and `oldest` is the reverse of `newest` on them. -/
theorem applySort_created_witness :
    (threeGames.map createdKey).Nodup ∧
    applySort refBuiltins threeGames (js "oldest")
      = (applySort refBuiltins threeGames (js "newest")).reverse :=
  ⟨by decide, (applySort_created refBuiltins threeGames).2.2.2.2.2.1 (by decide)⟩

/-! ### The category list -/

/-- C6: `render` writes `All` at the head of the category list and removes
duplicates among the entry categories, but then sorts the whole list and never
compares the entry categories with `All`: an entry of category `Action` puts
`Action` before `All`, and an entry of category `All` makes the list hold
`All` twice, while the claim asks for `All` first and no category twice. -/
theorem categories_All_misplaced_and_doubled :
    categories refBuiltins [mkGame "1" "x" (some "Action") none]
      = [js "Action", js "All"] ∧
    (categories refBuiltins [mkGame "1" "x" (some "Action") none]).head? ≠ some (js "All") ∧
    categories refBuiltins [mkGame "1" "x" (some "All") none] = [js "All", js "All"] ∧
    ¬ (categories refBuiltins [mkGame "1" "x" (some "All") none]).Nodup := by
  decide

/-! ### Loading a stored array -/

theorem sliceVal_orLit_some (n : Nat) (x : Option JVal) (d : JStr) (h : sliceable x = true) :
    ∃ v, sliceVal n (orLit x d) = some v := by
  cases x with
  | none => exact ⟨_, rfl⟩
  | some v =>
    cases v with
    | null => exact ⟨_, rfl⟩
    | bool b => cases b <;> first | exact ⟨_, rfl⟩ | exact absurd h (by decide)
    | num k =>
      by_cases hk : k = 0
      · subst hk; exact ⟨_, rfl⟩
      · simp [sliceable, JVal.truthy, hk] at h
    | str t =>
      simp only [orLit]
      split <;> exact ⟨_, rfl⟩
    | arr ys => exact ⟨_, rfl⟩
    | obj ps => exact absurd h (by simp [sliceable, JVal.truthy])

theorem sliceVal_orLit_none (n : Nat) (x : Option JVal) (d : JStr) (h : sliceable x = false) :
    sliceVal n (orLit x d) = none := by
  cases x with
  | none => exact absurd h (by decide)
  | some v =>
    cases v with
    | null => exact absurd h (by decide)
    | bool b => cases b <;> first | rfl | exact absurd h (by decide)
    | num k =>
      by_cases hk : k = 0
      · subst hk; exact absurd h (by decide)
      · simp [orLit, JVal.truthy, hk, sliceVal]
    | str t => exact absurd h (by simp [sliceable])
    | arr ys => exact absurd h (by simp [sliceable])
    | obj ps => rfl

theorem loadEntry_some (B : Builtins) (env : Env) (i : Nat) (g : JVal)
    (h : loadable g = true) : ∃ e, loadEntry B env i g = some e := by
  unfold loadable at h
  rw [Bool.and_eq_true] at h
  obtain ⟨v1, h1⟩ := sliceVal_orLit_some 2 _ (js "🎮") h.1
  obtain ⟨v2, h2⟩ := sliceVal_orLit_some 20 _ (js "Unsorted") h.2
  unfold loadEntry
  rw [h1, h2]
  exact ⟨_, rfl⟩

theorem loadEntry_none (B : Builtins) (env : Env) (i : Nat) (g : JVal)
    (h : loadable g = false) : loadEntry B env i g = none := by
  unfold loadable at h
  rw [Bool.and_eq_false_iff] at h
  unfold loadEntry
  rcases h with h | h
  · rw [sliceVal_orLit_none 2 _ _ h]
  · rw [sliceVal_orLit_none 20 _ _ h]
    split
    · rename_i heq
      exact absurd heq (by simp)
    · rfl

theorem loadEntry_name (B : Builtins) (env : Env) (i : Nat) (g : JVal) (e : LoadedGame)
    (h : loadEntry B env i g = some e) :
    e.name = slice0 40 (strOf (g.get (js "name"))) := by
  unfold loadEntry at h
  split at h
  · injection h with h
    rw [← h]
  · exact absurd h (by simp)

theorem mapIdx?_some {α β : Type} (f : Nat → α → Option β) (xs : List α) (i : Nat)
    (h : ∀ x ∈ xs, ∀ j, ∃ y, f j x = some y) : ∃ ys, mapIdx? f i xs = some ys := by
  induction xs generalizing i with
  | nil => exact ⟨[], rfl⟩
  | cons x xs ih =>
    obtain ⟨y, hy⟩ := h x (List.mem_cons_self _ _) i
    obtain ⟨ys, hys⟩ := ih (i + 1) (fun z hz j => h z (List.mem_cons_of_mem _ hz) j)
    exact ⟨y :: ys, by simp only [mapIdx?, hy, hys]⟩

theorem mapIdx?_none {α β : Type} (f : Nat → α → Option β) (xs : List α) (i : Nat)
    (h : ∃ x ∈ xs, ∀ j, f j x = none) : mapIdx? f i xs = none := by
  induction xs generalizing i with
  | nil =>
    obtain ⟨x, hx, _⟩ := h
    exact absurd hx (List.not_mem_nil x)
  | cons x xs ih =>
    obtain ⟨z, hz, hf⟩ := h
    simp only [mapIdx?]
    rcases List.mem_cons.mp hz with rfl | hz
    · rw [hf i]
    · split
      · rfl
      · rw [ih (i + 1) ⟨z, hz, hf⟩]

theorem mapIdx?_forall₂ {α β : Type} (f : Nat → α → Option β) (xs : List α) (i : Nat)
    (ys : List β) (h : mapIdx? f i xs = some ys) :
    List.Forall₂ (fun x y => ∃ j, f j x = some y) xs ys := by
  induction xs generalizing i ys with
  | nil =>
    simp only [mapIdx?, Option.some.injEq] at h
    subst h
    exact List.Forall₂.nil
  | cons x xs ih =>
    simp only [mapIdx?] at h
    split at h
    · exact absurd h (by simp)
    · rename_i z hz
      split at h
      · exact absurd h (by simp)
      · rename_i zs hzs
        injection h with h
        subst h
        exact List.Forall₂.cons ⟨i, hz⟩ (ih (i + 1) zs hzs)

theorem forall₂_names (B : Builtins) (env : Env) (xs : List JVal) (ys : List LoadedGame)
    (h : List.Forall₂ (fun x y => ∃ j, loadEntry B env j x = some y) xs ys) :
    ys.map (fun g => g.name) = xs.map (fun g => slice0 40 (strOf (g.get (js "name")))) := by
  induction h with
  | nil => rfl
  | cons hxy _ ih =>
    obtain ⟨j, hj⟩ := hxy
    simp only [List.map_cons, ih, loadEntry_name B env j _ _ hj]

/-- C2 (amended): for a stored array, when every element that is a non-null
object with a string `url` and a string `name` has an `emoji` and a `category`
that are missing, falsy, a string or an array, `loadGames` returns exactly one
entry for each such element, in the original order (the mapping of
`loadEntry`, with the name cut to 40 units), and drops every other element;
when some such element has another `emoji` or `category`, `loadGames` returns
the default entries. -/
theorem loadGames_array (B : Builtins) (env : Env) (xs : List JVal) :
    ((xs.filter validEntry).all loadable = true →
      mapIdx? (loadEntry B env) 0 (xs.filter validEntry)
        = some (loadGames B env (.json (.arr xs))) ∧
      (loadGames B env (.json (.arr xs))).length = (xs.filter validEntry).length ∧
      (loadGames B env (.json (.arr xs))).map (fun g => g.name)
        = (xs.filter validEntry).map (fun g => slice0 40 (strOf (g.get (js "name"))))) ∧
    ((xs.filter validEntry).all loadable = false →
      loadGames B env (.json (.arr xs)) = DEFAULT_GAMES env) := by
  constructor
  · intro h
    rw [List.all_eq_true] at h
    obtain ⟨ys, hys⟩ := mapIdx?_some (loadEntry B env) (xs.filter validEntry) 0
      (fun x hx j => loadEntry_some B env j x (h x hx))
    have hload : loadGames B env (.json (.arr xs)) = ys := by
      simp only [loadGames, hys]
    rw [hload]
    have hf := mapIdx?_forall₂ _ _ _ _ hys
    exact ⟨hys, hf.length_eq.symm, forall₂_names B env _ _ hf⟩
  · intro h
    have hex : ∃ x ∈ xs.filter validEntry, ∀ j, loadEntry B env j x = none := by
      rw [List.all_eq_false] at h
      obtain ⟨x, hx, hl⟩ := h
      exact ⟨x, hx, fun j => loadEntry_none B env j x (by simpa using hl)⟩
    simp only [loadGames, mapIdx?_none _ _ 0 hex]

/-- Witness for C2 (amended): a stored array with one valid element and one
element without `url` gives a list of exactly one entry, named as the valid
element; a stored array with a valid element and an element whose `emoji` is
the number 5 gives the default entries. -/
theorem loadGames_array_witness :
    (loadGames refBuiltins env0 (.json (.arr [rawEntry "b.io" "Pong" [],
        .obj [(js "name", .str (js "NoUrl"))]]))).length = 1 ∧
    (loadGames refBuiltins env0 (.json (.arr [rawEntry "b.io" "Pong" [],
        .obj [(js "name", .str (js "NoUrl"))]]))).map (fun g => g.name) = [js "Pong"] ∧
    loadGames refBuiltins env0 (.json (.arr [rawEntry "b.io" "y" [],
        rawEntry "a.io" "x" [(js "emoji", .num 5)]])) = DEFAULT_GAMES env0 :=
  ⟨((loadGames_array refBuiltins env0 _).1 (by decide)).2.1,
   ((loadGames_array refBuiltins env0 _).1 (by decide)).2.2,
   (loadGames_array refBuiltins env0 _).2 (by decide)⟩

end AshGames
